import Mathlib

/-!
# watchsync: debounced recursive directory watch

A shallow embedding of `src/watchsync.c`:

* `trim`, `run_rsync`: the sync executor wrapper and what it logs;
* `inotify_add_watch`, `add_watch_recursive`: the watch tree builder over a
  finite directory tree, threading the kernel-side watch registry;
* `diff`, `watch_job_iter`, `watch_job_run`: one iteration of the polling
  loop of `watch_job` and its iteration over a list of ticks;
* `main_daemon`: the daemon branch of `main`.

External calls whose results the C code depends on (clock readings, the
result of `read`, `mkstemp`, `fdopen`, `system`, `fork`, directory listings)
are explicit inputs.  Calls made for their effect (`ws_log`, `system`,
`run_rsync`, `fork`) are recorded in output lists.
-/

namespace WatchSync

/-! ## Configuration and logging -/

/-- The fields of `struct config` that the modelled functions read.
`exclude_count` is the length of `excludes`. -/
structure config where
  name : String
  local_root : String
  remote_user : String
  remote_host : String
  remote_root : String
  remote_password : String
  delete : Int
  delay_ms : Int
  excludes : List String
deriving DecidableEq, Repr

/-- The syslog priority `LOG_ERR`. -/
def LOG_ERR : Nat := 3

/-- The syslog priority `LOG_INFO`. -/
def LOG_INFO : Nat := 6

/-- One call of `ws_log(priority, format, ...)`: the priority and the
formatted text.  Which sink receives it (syslog or a console stream) is not
modelled. -/
structure LogLine where
  priority : Nat
  text : String
deriving DecidableEq, Repr

/-! ## `trim` -/

/-- The characters the first loop of `trim` skips at the front. -/
def is_blank (ch : Char) : Bool :=
  ch == Char.ofNat 32 || ch == Char.ofNat 9

/-- The characters the second loop of `trim` overwrites with NUL at the back. -/
def is_trailing_space (ch : Char) : Bool :=
  ch == Char.ofNat 10 || ch == Char.ofNat 13 || ch == Char.ofNat 32 || ch == Char.ofNat 9

/-- The function `trim` on the characters of a C string: drop leading spaces
and tabs, then cut trailing newlines, carriage returns, spaces and tabs. -/
def trim_chars (s : List Char) : List Char :=
  ((s.dropWhile is_blank).reverse.dropWhile is_trailing_space).reverse

/-- The function `trim`, on strings. -/
def trim (s : String) : String :=
  String.mk (trim_chars s.data)

/-! ## `run_rsync` -/

/-- The size of the command buffer, `CMD_BUF`. -/
def CMD_BUF : Int := 16384

/-- What the environment answers during one call of `run_rsync`. -/
structure RsyncEnv where
  /-- Result of `mkstemp(excl_tpl)`. -/
  excl_fd : Int
  /-- Result of `mkstemp(out_tpl)`. -/
  out_fd : Int
  /-- Content of `excl_tpl` after `mkstemp` filled in the template. -/
  excl_tpl : String
  /-- Content of `out_tpl` after `mkstemp` filled in the template. -/
  out_tpl : String
  /-- Whether `fdopen(excl_fd, "w")` returns a stream. -/
  excl_fdopen_ok : Bool
  /-- Result of `system(cmd)`. -/
  rc : Int
  /-- Whether `fdopen(out_fd, "r")` returns a stream. -/
  out_fdopen_ok : Bool
  /-- The C strings that the successive successful `fgets` calls leave in
  `line`, in order (a report line with its newline, or a piece of a line
  longer than the buffer). -/
  out_lines : List String
deriving DecidableEq, Repr

/-- The effects of one call of `run_rsync` that are modelled: the `ws_log`
calls and the commands handed to `system`, each in call order.  The calls
on the temporary files (`close`, `unlink`, `fprintf`) and `setenv` are
left out. -/
structure RsyncRun where
  log : List LogLine
  commands : List String
deriving DecidableEq, Repr

/-- The command text that `snprintf` formats into `cmd`. -/
def rsync_command (c : config) (env : RsyncEnv) : String :=
  "sshpass -e rsync -az --itemize-changes " ++ (if c.delete ≠ 0 then "--delete" else "") ++
    " --exclude-from=" ++ env.excl_tpl ++ " " ++ c.local_root ++ "/ " ++
    c.remote_user ++ "@" ++ c.remote_host ++ ":" ++ c.remote_root ++ "/ > " ++
    env.out_tpl ++ " 2>&1"

/-- The `while (fgets(...))` loop of `run_rsync`: the flag `changes` and the
log so far, over the remaining `fgets` results.  Returns the final flag and
log. -/
def report_loop (name : String) : Bool → List LogLine → List String → Bool × List LogLine
  | changes, log, [] => (changes, log)
  | changes, log, line :: rest =>
    let line := trim line
    if line ≠ "" then
      let log := if changes then log
        else log ++ [⟨LOG_INFO, "[" ++ name ++ "] === RSYNC START ==="⟩]
      report_loop name true (log ++ [⟨LOG_INFO, "[" ++ name ++ "] " ++ line⟩]) rest
    else
      report_loop name changes log rest

/-- The part of `run_rsync` after `system` returned `rc`: read the output
file and log the report. -/
def run_rsync_report (name : String) (rc : Int) (out_fdopen_ok : Bool)
    (out_lines : List String) : List LogLine :=
  if out_fdopen_ok then
    match report_loop name false [] out_lines with
    | (changes, log) =>
      if changes then
        if rc = 0 then
          log ++ [⟨LOG_INFO, "[" ++ name ++ "] === RSYNC OK ==="⟩]
        else
          log ++ [⟨LOG_ERR, "[" ++ name ++ "] === RSYNC ERROR (exit code " ++ toString rc ++ ") ==="⟩]
      else log
  else []

/-- The function `run_rsync`. -/
def run_rsync (c : config) (env : RsyncEnv) : RsyncRun :=
  if env.excl_fd < 0 ∨ env.out_fd < 0 then
    { log := [⟨LOG_ERR, "[" ++ c.name ++ "] mkstemp failed"⟩], commands := [] }
  else if !env.excl_fdopen_ok then
    { log := [], commands := [] }
  else
    let cmd := rsync_command c env
    let n : Int := cmd.utf8ByteSize
    if n < 0 ∨ n ≥ CMD_BUF then
      { log := [⟨LOG_ERR, "[" ++ c.name ++ "] Command buffer overflow"⟩], commands := [] }
    else
      { log := run_rsync_report c.name env.rc env.out_fdopen_ok env.out_lines,
        commands := [cmd] }

/-! ## The watch registry and `add_watch_recursive` -/

/-- The kernel-side state behind the inotify descriptor `fd`, as the data
model describes the watch tree: a mapping from watch handle to directory
path, with the next handle the kernel will issue. -/
structure Inotify where
  watches : List (Int × String)
  next_wd : Int
deriving DecidableEq, Repr

/-- The state right after `inotify_init1`: no watch, handles start at 1. -/
def inotify_init1 : Inotify := ⟨[], 1⟩

/-- The registered paths, in registration order. -/
def Inotify.paths (fd : Inotify) : List String :=
  fd.watches.map Prod.snd

/-- The kernel call `inotify_add_watch(fd, path, mask)`.  `ok` tells whether
the kernel accepts the registration.  Registering a path that already has a
watch returns its existing handle and adds nothing; a failed call returns -1
and changes nothing. -/
def inotify_add_watch (fd : Inotify) (path : String) (ok : Bool) : Inotify × Int :=
  if ok then
    match fd.watches.find? (fun w => w.2 == path) with
    | some w => (fd, w.1)
    | none => (⟨fd.watches ++ [(fd.next_wd, path)], fd.next_wd + 1⟩, fd.next_wd)
  else (fd, -1)

mutual
/-- A directory of the tree: whether `inotify_add_watch` succeeds on it,
whether `opendir` succeeds on it, and the entries `readdir` lists (other than
the two special entries), each with its name. -/
inductive Dir where
  | mk (add_ok : Bool) (open_ok : Bool) (entries : List (String × Entry)) : Dir
/-- What `lstat` finds under an entry name: a regular file (or any other
non-directory), a symbolic link (with what it points to recorded, which
`lstat` does not look at), or a real directory. -/
inductive Entry where
  | reg : Entry
  | symlink (to_dir : Bool) : Entry
  | subdir (d : Dir) : Entry
end

/-- The flag `add_ok` of a directory. -/
def Dir.add_ok : Dir → Bool
  | .mk a _ _ => a

/-- The flag `open_ok` of a directory. -/
def Dir.open_ok : Dir → Bool
  | .mk _ o _ => o

/-- The entries of a directory. -/
def Dir.entries : Dir → List (String × Entry)
  | .mk _ _ es => es

/-- The constant `PATH_MAX` of `limits.h` on Linux. -/
def PATH_MAX : Nat := 4096

/-- The call `snprintf(sub, sizeof(sub), "%s/%s", path, e->d_name)` with
`char sub[PATH_MAX]`.  The result is `none` when the text does not fit and
`snprintf` cuts it: the cut name is not the name of the entry, and what
`lstat` reports for it lies outside the tree model. -/
def snprintf_sub (path d_name : String) : Option String :=
  let s := path ++ "/" ++ d_name
  if s.utf8ByteSize < PATH_MAX then some s else none

mutual
/-- The function `add_watch_recursive(fd, path)`, where `path` names the
directory given as third argument.  The result of `inotify_add_watch` is
dropped, as in the source.  The result is `none` when some `snprintf` cut a
name (see `snprintf_sub`). -/
def add_watch_recursive (fd : Inotify) (path : String) : Dir → Option Inotify
  | .mk add_ok open_ok entries =>
    let fd1 := (inotify_add_watch fd path add_ok).1
    if open_ok then readdir_loop fd1 path entries else some fd1
/-- The `while ((e = readdir(d)))` loop of `add_watch_recursive` over the
entries still to be read.  The entry paired with a name is what
`lstat(sub, &st)` finds; `lstat(sub, &st) == 0 && S_ISDIR(st.st_mode)` holds
for `Entry.subdir` only. -/
def readdir_loop (fd : Inotify) (path : String) : List (String × Entry) → Option Inotify
  | [] => some fd
  | (d_name, e) :: rest =>
    if d_name = "." ∨ d_name = ".." then readdir_loop fd path rest
    else
      match snprintf_sub path d_name with
      | none => none
      | some sub =>
        match e with
        | .subdir d =>
          match add_watch_recursive fd sub d with
          | none => none
          | some fd2 => readdir_loop fd2 path rest
        | _ => readdir_loop fd path rest
end

mutual
/-- Every `inotify_add_watch` and every `opendir` in the tree succeeds. -/
def Dir.all_ok : Dir → Bool
  | .mk add_ok open_ok entries => add_ok && open_ok && entries_all_ok entries
/-- Every directory among the entries satisfies `Dir.all_ok`. -/
def entries_all_ok : List (String × Entry) → Bool
  | [] => true
  | (_, .subdir d) :: rest => d.all_ok && entries_all_ok rest
  | _ :: rest => entries_all_ok rest
end

mutual
/-- No listed entry is called `.` or `..` (the two special entries are not
part of `entries`), and every entry path fits in `sub`. -/
def Dir.names_ok (path : String) : Dir → Bool
  | .mk _ _ entries => entries_names_ok path entries
/-- The entries part of `Dir.names_ok`. -/
def entries_names_ok (path : String) : List (String × Entry) → Bool
  | [] => true
  | (d_name, e) :: rest =>
    decide (d_name ≠ ".") && decide (d_name ≠ "..") &&
    decide ((path ++ "/" ++ d_name).utf8ByteSize < PATH_MAX) &&
    (match e with
      | .subdir d => d.names_ok (path ++ "/" ++ d_name)
      | _ => true) &&
    entries_names_ok path rest
end

/-- The directories that the walk from `path` (naming the directory `d`)
enters: `Walked path d p dp` says that the walk calls
`add_watch_recursive(fd, p)` with `dp` the directory that `p` names.  The
walk starts at the root and goes from a directory that `opendir` can open to
each real directory listed in it. -/
inductive Walked : String → Dir → String → Dir → Prop
  | root (path : String) (d : Dir) : Walked path d path d
  | down {path : String} {add_ok : Bool} {entries : List (String × Entry)}
      {d_name : String} {dc : Dir} {p : String} {dp : Dir} :
      (d_name, Entry.subdir dc) ∈ entries → d_name ≠ "." → d_name ≠ ".." →
      Walked (path ++ "/" ++ d_name) dc p dp →
      Walked path (Dir.mk add_ok true entries) p dp

/-- The type `struct timespec`: seconds and nanoseconds. -/
structure timespec where
  tv_sec : Int
  tv_nsec : Int
deriving DecidableEq, Repr

/-- The value `diff` of `watch_job`:
`(now.tv_sec - last_event.tv_sec) * 1000 + (now.tv_nsec - last_event.tv_nsec) / 1000000`,
where `/` on C integers truncates toward zero.  The C type is `long` (64
bits on Linux LP64), which no value computed from readings of the
monotonic clock overflows; the value is taken in the integers. -/
def diff (last_event now : timespec) : Int :=
  (now.tv_sec - last_event.tv_sec) * 1000 +
    (now.tv_nsec - last_event.tv_nsec).tdiv 1000000

/-- The time from `last_event` to `now` in nanoseconds. -/
def elapsed_ns (last_event now : timespec) : Int :=
  (now.tv_sec - last_event.tv_sec) * 1000000000 + (now.tv_nsec - last_event.tv_nsec)

/-- A well-formed clock reading: `0 <= tv_nsec < 10^9`. -/
def timespec.valid (t : timespec) : Prop :=
  0 ≤ t.tv_nsec ∧ t.tv_nsec < 1000000000

/-- What the environment answers during one iteration of the loop: the
result `r` of `read`, the clock reading stored in `last_event` (taken only
when `r > 0`), and the clock reading `now` (taken only when `pending`). -/
structure Tick where
  r : Int
  t_event : timespec
  now : timespec
deriving DecidableEq, Repr

/-- The local variables of `watch_job` that live across iterations. -/
structure JobState where
  pending : Int
  last_event : timespec
deriving DecidableEq, Repr

/-- The calls a flush makes, with their arguments. -/
inductive Call where
  | run_rsync (c : config) : Call
  | add_watch_recursive (path : String) : Call
deriving DecidableEq, Repr

/-- The state with which `watch_job` enters its loop. -/
def watch_job_init : JobState := ⟨0, ⟨0, 0⟩⟩

/-- One iteration of the `while (1)` loop of `watch_job`, up to the
`usleep`: the new state and the calls the iteration made. -/
def watch_job_iter (c : config) (s : JobState) (tk : Tick) : JobState × List Call :=
  let s1 : JobState := if tk.r > 0 then ⟨1, tk.t_event⟩ else s
  if s1.pending ≠ 0 then
    if diff s1.last_event tk.now ≥ c.delay_ms then
      (⟨0, s1.last_event⟩, [Call.run_rsync c, Call.add_watch_recursive c.local_root])
    else (s1, [])
  else (s1, [])

/-- The loop of `watch_job` over the given ticks, from state `s`: the state
after the last of them and all calls made, in order. -/
def watch_job_run (c : config) (s : JobState) (ticks : List Tick) : JobState × List Call :=
  ticks.foldl (fun acc tk => ((watch_job_iter c acc.1 tk).1, acc.2 ++ (watch_job_iter c acc.1 tk).2))
    (s, [])

/-- Whether a call is a call of `run_rsync`. -/
def Call.is_run_rsync : Call → Bool
  | .run_rsync _ => true
  | _ => false

/-- The number of flushes (calls of `run_rsync`) among the calls. -/
def flushes (calls : List Call) : Nat :=
  calls.countP Call.is_run_rsync

/-! ### Ticks on the fixed cadence

Times are nanoseconds of `CLOCK_MONOTONIC`.  Tick `k` of a loop whose first
iteration runs at `t0` runs at `t0 + k * 200 ms`; both clock readings of an
iteration are the time of its tick, and `read` returns the notifications
that arrived after the previous tick and up to this one. -/

/-- The sleep of `usleep(200 * 1000)`, in nanoseconds. -/
def CADENCE_NS : Nat := 200 * 1000 * 1000

/-- One millisecond in nanoseconds. -/
def MS : Nat := 1000000

/-- The clock reading at `t` nanoseconds. -/
def clock (t : Nat) : timespec :=
  ⟨(t / 1000000000 : Nat), (t % 1000000000 : Nat)⟩

/-- The time of tick `k`. -/
def tick_time (t0 k : Nat) : Nat :=
  t0 + k * CADENCE_NS

/-- The arrival times of the notifications that `read` finds at tick `k`:
those up to the time of the tick and, after the first tick, later than the
previous tick. -/
def arrived (arrivals : List Nat) (t0 k : Nat) : List Nat :=
  arrivals.filter (fun a => decide (a ≤ tick_time t0 k) &&
    (decide (k = 0) || decide (tick_time t0 (k - 1) < a)))

/-- The result of the non-blocking `read` at tick `k`: -1 when nothing
arrived, else the size of the events read (16 bytes each, at least). -/
def read_result (arrivals : List Nat) (t0 k : Nat) : Int :=
  if arrived arrivals t0 k = [] then -1 else 16 * ((arrived arrivals t0 k).length : Int)

/-- Tick `k` as the loop sees it. -/
def poll (arrivals : List Nat) (t0 k : Nat) : Tick :=
  ⟨read_result arrivals t0 k, clock (tick_time t0 k), clock (tick_time t0 k)⟩

/-- The first `n` ticks. -/
def polls (arrivals : List Nat) (t0 n : Nat) : List Tick :=
  (List.range n).map (poll arrivals t0)

/-- The number of flushes during the first `n` ticks of a loop that starts
idle. -/
def flushes_after (c : config) (arrivals : List Nat) (t0 n : Nat) : Nat :=
  flushes (watch_job_run c watch_job_init (polls arrivals t0 n)).2

/-- A burst for quiet period `delay_ms`: arrival times in order, each less
than `delay_ms` milliseconds after the one before. -/
def is_burst (delay_ms : Int) : List Nat → Prop
  | [] => True
  | [_] => True
  | a :: b :: rest => a ≤ b ∧ ((b : Int) - a < delay_ms * 1000000) ∧ is_burst delay_ms (b :: rest)

/-- The state of the loop after the first `n` ticks. -/
def state_after (c : config) (arrivals : List Nat) (t0 n : Nat) : JobState :=
  (watch_job_run c watch_job_init (polls arrivals t0 n)).1

/-- The last tick before tick `n` at which `read` returned events, if any. -/
def last_obs (arrivals : List Nat) (t0 : Nat) : Nat → Option Nat
  | 0 => none
  | n + 1 => if 0 < read_result arrivals t0 n then some n else last_obs arrivals t0 n

/-- The first tick at or after time `a`. -/
def obs_idx (t0 a : Nat) : Nat :=
  (a - t0 + (CADENCE_NS - 1)) / CADENCE_NS

/-- The number of cadence intervals that cover `delay_ms`: the least `m` with
`delay_ms <= 200 * m`. -/
def quiet_ticks (delay_ms : Int) : Nat :=
  ((delay_ms + 199) / 200).toNat

/-- Tick `n` is one at which the quiet period of the last observed
notification runs out: that notification was observed `quiet_ticks` ticks
before, and none since. -/
def flush_tick (c : config) (arrivals : List Nat) (t0 n : Nat) : Prop :=
  ∃ j, last_obs arrivals t0 (n + 1) = some j ∧ n = j + quiet_ticks c.delay_ms

/-- A job with the default quiet period of `init_config`, 500 ms. -/
def job500 : config :=
  ⟨"cli", "/srv/data", "backup", "mirror.example.org", "/backup/data", "", 0, 500, []⟩

/-- Both `mkstemp` calls succeed and `fdopen(excl_fd, "w")` returns NULL. -/
def env_fdopen_fails : RsyncEnv :=
  ⟨3, 4, "/tmp/watchsync_excl_a1b2c3", "/tmp/watchsync_out_d4e5f6", false, 0, true, []⟩

/-- The first `mkstemp` fails. -/
def env_mkstemp_fails : RsyncEnv :=
  ⟨-1, 4, "/tmp/watchsync_excl_XXXXXX", "/tmp/watchsync_out_d4e5f6", true, 0, true, []⟩

/-- The job `job500` with a quiet period of 401 ms. -/
def job401 : config :=
  ⟨"cli", "/srv/data", "backup", "mirror.example.org", "/backup/data", "", 0, 401, []⟩

/-- Three ticks a little more than 200 ms apart: the first reads one
notification at 0.999999999 s, the others read nothing, at 1.200300000 s
and 1.400500000 s. -/
def jitter_ticks : List Tick :=
  [⟨16, ⟨0, 999999999⟩, ⟨0, 999999999⟩⟩,
   ⟨-1, ⟨1, 200300000⟩, ⟨1, 200300000⟩⟩,
   ⟨-1, ⟨1, 400500000⟩, ⟨1, 400500000⟩⟩]

/-- A tree with failures: `inotify_add_watch` fails on the directory `D`,
which can be opened and holds a directory `E`; `opendir` fails on the
directory `U`, which holds a directory `V`. -/
def tree_failing : Dir :=
  .mk true true
    [("D", .subdir (.mk false true [("E", .subdir (.mk true true []))])),
     ("U", .subdir (.mk true false [("V", .subdir (.mk true true []))])),
     ("F", .subdir (.mk true true []))]

/-! ## The daemon branch of `main` -/

/-- What one process does in the daemon branch of `main`, as seen from
outside, in order. -/
inductive Ev where
  | openlog : Ev
  | ws_log (l : LogLine) : Ev
  | daemonize : Ev
  | fork (ret : Int) : Ev
  | watch_job (c : config) : Ev
  | wait_all : Ev
  | closelog : Ev
deriving DecidableEq, Repr

/-- What the environment answers to one process running the daemon branch:
whether this process leaves through an `exit` inside `daemonize` (and with
which status), and what the `i`-th `fork` of the job loop returns in this
process (0 in the child it creates). -/
structure MainEnv where
  daemonize_exit : Option Int
  fork_ret : Nat → Int

/-- The trace of a process and the status with which it leaves `main`; the
status is `none` for a process that entered `watch_job`, which never
returns to `main` (its loop has no exit, and `die` ends the process). -/
structure MainRun where
  trace : List Ev
  status : Option Int

/-- The loop `for (int i = 0; i < job_count; i++)` of `main` from index `i`
with `remaining = job_count - i` iterations to go, followed by the rest of
the daemon branch. -/
def fork_loop (env : MainEnv) (jobs : Nat → config) : Nat → Nat → MainRun
  | _, 0 => ⟨[Ev.wait_all, Ev.closelog], some 0⟩
  | i, remaining + 1 =>
    if env.fork_ret i = 0 then
      ⟨[Ev.fork 0, Ev.watch_job (jobs i)], none⟩
    else
      let rest := fork_loop env jobs (i + 1) remaining
      ⟨Ev.fork (env.fork_ret i) :: rest.trace, rest.status⟩

/-- The branch `if (is_daemon)` of `main`, entered after
`load_daemon_configs` filled `jobs[0 .. job_count - 1]`. -/
def main_daemon (env : MainEnv) (jobs : Nat → config) (job_count : Nat) : MainRun :=
  if job_count = 0 then
    ⟨[Ev.openlog,
      Ev.ws_log ⟨LOG_ERR, "No valid jobs found. Check permissions and /etc/watchsync.d/"⟩],
     some 1⟩
  else
    match env.daemonize_exit with
    | some status => ⟨[Ev.openlog, Ev.daemonize], some status⟩
    | none =>
      let rest := fork_loop env jobs 0 job_count
      ⟨[Ev.openlog, Ev.daemonize,
        Ev.ws_log ⟨LOG_INFO, "WatchSync daemon started with " ++ toString job_count ++ " jobs"⟩]
        ++ rest.trace, rest.status⟩

/-- The `fork` calls in a trace. -/
def Ev.is_fork : Ev → Bool
  | .fork _ => true
  | _ => false

/-- The jobs on which a trace enters `watch_job`. -/
def watched (trace : List Ev) : List config :=
  trace.filterMap (fun e => match e with
    | .watch_job c => some c
    | _ => none)

/-- The environment of the supervisor of two jobs: `daemonize` returns and
the two `fork` calls return the process ids 101 and 102. -/
def env_supervisor : MainEnv :=
  ⟨none, fun i => 101 + (i : Int)⟩

/-- The environment of the second child of that supervisor: `daemonize`
returned, the first `fork` returned 101 and the second returns 0. -/
def env_child : MainEnv :=
  ⟨none, fun i => if i = 1 then 0 else 101⟩

/-- A roster of two jobs: `job500`, then `job401`. -/
def jobs2 : Nat → config :=
  fun i => if i = 0 then job500 else job401

/-! ## Lemmas on `diff` -/

theorem tdiv_million_of_nonneg (x : Int) (h : 0 ≤ x) : x.tdiv 1000000 = x / 1000000 :=
  Int.tdiv_eq_ediv h (by decide)

theorem tdiv_million_of_neg (x : Int) (h : x < 0) : x.tdiv 1000000 = -((-x) / 1000000) := by
  have h1 : x = -(-x) := by omega
  rw [h1, Int.neg_tdiv, Int.tdiv_eq_ediv (by omega) (by decide)]
  simp

/-- The timer never fires late: once the elapsed time reaches `d` milliseconds,
`diff` has reached `d`. -/
theorem diff_ge_of_elapsed (last_event now : timespec) (d : Int)
    (h : d * 1000000 ≤ elapsed_ns last_event now) : d ≤ diff last_event now := by
  unfold elapsed_ns at h
  unfold diff
  rcases Int.lt_or_le (now.tv_nsec - last_event.tv_nsec) 0 with hneg | hpos
  · rw [tdiv_million_of_neg _ hneg]; omega
  · rw [tdiv_million_of_nonneg _ hpos]; omega

/-- The timer fires less than one millisecond early at worst. -/
theorem elapsed_of_diff_ge (last_event now : timespec) (d : Int)
    (h : d ≤ diff last_event now) : (d - 1) * 1000000 < elapsed_ns last_event now := by
  unfold diff at h
  unfold elapsed_ns
  rcases Int.lt_or_le (now.tv_nsec - last_event.tv_nsec) 0 with hneg | hpos
  · rw [tdiv_million_of_neg _ hneg] at h; omega
  · rw [tdiv_million_of_nonneg _ hpos] at h; omega

/-- When the nanosecond field did not wrap, `diff` compares exactly. -/
theorem diff_ge_iff_of_nsec_le (last_event now : timespec) (d : Int)
    (h : last_event.tv_nsec ≤ now.tv_nsec) :
    d ≤ diff last_event now ↔ d * 1000000 ≤ elapsed_ns last_event now := by
  unfold diff elapsed_ns
  rw [tdiv_million_of_nonneg _ (by omega)]
  omega

/-- Between two readings a whole number of milliseconds apart, `diff` is that
number. -/
theorem diff_clock_add (a x : Nat) : diff (clock a) (clock (a + x * MS)) = x := by
  unfold diff clock MS
  simp only
  have h : (((a + x * 1000000) % 1000000000 : Nat) : Int) - ((a % 1000000000 : Nat) : Int)
      = 1000000 * ((x : Int) - 1000 * ((((a + x * 1000000) / 1000000000 : Nat) : Int)
          - ((a / 1000000000 : Nat) : Int))) := by
    omega
  rw [h, Int.mul_tdiv_cancel_left _ (by decide)]
  omega

theorem diff_tick (t0 j n : Nat) (h : j ≤ n) :
    diff (clock (tick_time t0 j)) (clock (tick_time t0 n)) = ((n - j : Nat) : Int) * 200 := by
  have e : tick_time t0 n = tick_time t0 j + ((n - j) * 200) * MS := by
    unfold tick_time CADENCE_NS MS
    have : n = j + (n - j) := by omega
    generalize n - j = k at this ⊢
    subst this
    ring
  rw [e, diff_clock_add]
  push_cast
  rfl

/-! ## The loop on the fixed cadence -/

theorem watch_job_run_snoc (c : config) (s : JobState) (ticks : List Tick) (tk : Tick) :
    watch_job_run c s (ticks ++ [tk]) =
      ((watch_job_iter c (watch_job_run c s ticks).1 tk).1,
       (watch_job_run c s ticks).2 ++ (watch_job_iter c (watch_job_run c s ticks).1 tk).2) := by
  simp [watch_job_run, List.foldl_append]

theorem polls_succ (arrivals : List Nat) (t0 n : Nat) :
    polls arrivals t0 (n + 1) = polls arrivals t0 n ++ [poll arrivals t0 n] := by
  simp [polls, List.range_succ]

theorem state_after_succ (c : config) (arrivals : List Nat) (t0 n : Nat) :
    state_after c arrivals t0 (n + 1) =
      (watch_job_iter c (state_after c arrivals t0 n) (poll arrivals t0 n)).1 := by
  simp [state_after, polls_succ, watch_job_run_snoc]

theorem flushes_after_succ (c : config) (arrivals : List Nat) (t0 n : Nat) :
    flushes_after c arrivals t0 (n + 1) = flushes_after c arrivals t0 n +
      flushes (watch_job_iter c (state_after c arrivals t0 n) (poll arrivals t0 n)).2 := by
  simp [flushes_after, state_after, polls_succ, watch_job_run_snoc, flushes, List.countP_append]

theorem flushes_after_zero (c : config) (arrivals : List Nat) (t0 : Nat) :
    flushes_after c arrivals t0 0 = 0 := by
  simp [flushes_after, polls, watch_job_run, flushes]

theorem quiet_ticks_spec (d : Int) (k : Nat) :
    k = quiet_ticks d ↔ (d ≤ (k : Int) * 200 ∧ (k = 0 ∨ ((k : Int) - 1) * 200 < d)) := by
  unfold quiet_ticks
  omega

/-- The state after `n` ticks, from the last tick that observed
notifications. -/
theorem state_after_eq (c : config) (arrivals : List Nat) (t0 n : Nat) :
    match last_obs arrivals t0 n with
    | none => state_after c arrivals t0 n = watch_job_init
    | some j => j < n ∧ state_after c arrivals t0 n =
        ⟨if ((n - 1 - j : Nat) : Int) * 200 < c.delay_ms then 1 else 0, clock (tick_time t0 j)⟩ := by
  induction n with
  | zero => simp [last_obs, state_after, polls, watch_job_run]
  | succ n ih =>
    rw [state_after_succ]
    unfold last_obs
    by_cases hr : 0 < read_result arrivals t0 n
    · simp only [hr, if_true]
      refine ⟨Nat.lt_succ_self n, ?_⟩
      have hd := diff_tick t0 n n (Nat.le_refl n)
      simp only [Nat.sub_self, Nat.cast_zero, zero_mul] at hd
      simp only [watch_job_iter, poll, gt_iff_lt, hr, if_true, hd]
      by_cases h0 : 0 < c.delay_ms
      · have : ¬ (0 ≥ c.delay_ms) := by omega
        simp [this, h0]
      · have : 0 ≥ c.delay_ms := by omega
        simp [this, h0]
    · simp only [hr, if_false]
      cases hl : last_obs arrivals t0 n with
      | none =>
        rw [hl] at ih
        simp only at ih ⊢
        rw [ih]
        simp [watch_job_iter, poll, hr, watch_job_init]
      | some j =>
        rw [hl] at ih
        simp only at ih ⊢
        obtain ⟨hj, hs⟩ := ih
        refine ⟨Nat.lt_succ_of_lt hj, ?_⟩
        rw [hs]
        have hd := diff_tick t0 j n (Nat.le_of_lt hj)
        simp only [watch_job_iter, poll, gt_iff_lt, hr, if_false, hd]
        have e1 : ((n + 1 - 1 - j : Nat) : Int) = ((n - j : Nat) : Int) := by simp
        have e2 : ((n - j : Nat) : Int) = ((n - 1 - j : Nat) : Int) + 1 := by omega
        rw [e1]
        by_cases hp : ((n - 1 - j : Nat) : Int) * 200 < c.delay_ms
        · by_cases hq : ((n - j : Nat) : Int) * 200 ≥ c.delay_ms
          · have : ¬ (((n - j : Nat) : Int) * 200 < c.delay_ms) := by omega
            simp [hp, hq, this]
          · have : ((n - j : Nat) : Int) * 200 < c.delay_ms := by omega
            simp [hp, hq, this]
        · have : ¬ (((n - j : Nat) : Int) * 200 < c.delay_ms) := by omega
          simp [hp, this]

/-- Whether the iteration at tick `n` flushes. -/
theorem flushes_at_tick (c : config) (arrivals : List Nat) (t0 n : Nat) :
    (flush_tick c arrivals t0 n →
      flushes (watch_job_iter c (state_after c arrivals t0 n) (poll arrivals t0 n)).2 = 1) ∧
    (¬ flush_tick c arrivals t0 n →
      flushes (watch_job_iter c (state_after c arrivals t0 n) (poll arrivals t0 n)).2 = 0) := by
  have inv := state_after_eq c arrivals t0 n
  unfold flush_tick
  unfold last_obs
  by_cases hr : 0 < read_result arrivals t0 n
  · have hd := diff_tick t0 n n (Nat.le_refl n)
    simp only [Nat.sub_self, Nat.cast_zero, zero_mul] at hd
    have hq := quiet_ticks_spec c.delay_ms 0
    simp only [hr, if_true, watch_job_iter, poll, gt_iff_lt, hd]
    by_cases h0 : 0 ≥ c.delay_ms
    · have hz : quiet_ticks c.delay_ms = 0 := by
        have := hq.mpr ⟨by omega, Or.inl rfl⟩
        omega
      simp [h0, flushes, Call.is_run_rsync, hz]
    · have hne : ¬ (0 = quiet_ticks c.delay_ms) := by
        intro h
        have := hq.mp h
        omega
      constructor
      · rintro ⟨j, hj, hn⟩
        simp only [Option.some.injEq] at hj
        omega
      · intro _
        simp [h0, flushes]
  · simp only [hr, if_false]
    cases hl : last_obs arrivals t0 n with
    | none =>
      rw [hl] at inv
      simp only at inv
      rw [inv]
      simp [watch_job_iter, poll, hr, watch_job_init, flushes]
    | some j =>
      rw [hl] at inv
      simp only at inv
      obtain ⟨hj, hs⟩ := inv
      rw [hs]
      have hd := diff_tick t0 j n (Nat.le_of_lt hj)
      have hq := quiet_ticks_spec c.delay_ms (n - j)
      have e2 : ((n - j : Nat) : Int) = ((n - 1 - j : Nat) : Int) + 1 := by omega
      simp only [watch_job_iter, poll, gt_iff_lt, hr, if_false, hd, Option.some.injEq,
        exists_eq_left']
      by_cases hp : ((n - 1 - j : Nat) : Int) * 200 < c.delay_ms
      · by_cases hq2 : ((n - j : Nat) : Int) * 200 ≥ c.delay_ms
        · have hn : n = j + quiet_ticks c.delay_ms := by
            have := hq.mpr ⟨by omega, Or.inr (by omega)⟩
            omega
          simp [hp, hq2, flushes, Call.is_run_rsync, ← hn]
        · have hne : ¬ (n = j + quiet_ticks c.delay_ms) := by
            intro h
            have h2 : n - j = quiet_ticks c.delay_ms := by omega
            have := hq.mp h2
            omega
          simp [hp, hq2, flushes, hne]
      · have hne : ¬ (n = j + quiet_ticks c.delay_ms) := by
          intro h
          have h2 : n - j = quiet_ticks c.delay_ms := by omega
          have := hq.mp h2
          omega
        simp [hp, flushes, hne]

/-- One flush tick: the count of flushes steps from 0 to 1 right after it. -/
theorem flushes_after_of_one (c : config) (arrivals : List Nat) (t0 k : Nat)
    (h : ∀ n, flush_tick c arrivals t0 n ↔ n = k) (n : Nat) :
    flushes_after c arrivals t0 n = if k < n then 1 else 0 := by
  induction n with
  | zero => simp [flushes_after_zero]
  | succ n ih =>
    rw [flushes_after_succ, ih]
    by_cases hk : n = k
    · rw [(flushes_at_tick c arrivals t0 n).1 ((h n).2 hk)]
      split_ifs <;> omega
    · rw [(flushes_at_tick c arrivals t0 n).2 (fun hf => hk ((h n).1 hf))]
      split_ifs <;> omega

/-- Two flush ticks: the count of flushes steps by one right after each. -/
theorem flushes_after_of_two (c : config) (arrivals : List Nat) (t0 k1 k2 : Nat)
    (hlt : k1 < k2) (h : ∀ n, flush_tick c arrivals t0 n ↔ (n = k1 ∨ n = k2)) (n : Nat) :
    flushes_after c arrivals t0 n = (if k1 < n then 1 else 0) + (if k2 < n then 1 else 0) := by
  induction n with
  | zero => simp [flushes_after_zero]
  | succ n ih =>
    rw [flushes_after_succ, ih]
    by_cases hk : n = k1 ∨ n = k2
    · rw [(flushes_at_tick c arrivals t0 n).1 ((h n).2 hk)]
      split_ifs <;> omega
    · rw [(flushes_at_tick c arrivals t0 n).2 (fun hf => hk ((h n).1 hf))]
      split_ifs <;> omega

/-! ### Observation ticks of arrivals -/

theorem obs_idx_eq_iff (t0 a k : Nat) :
    obs_idx t0 a = k ↔ (a ≤ tick_time t0 k ∧ (k = 0 ∨ tick_time t0 (k - 1) < a)) := by
  unfold obs_idx tick_time CADENCE_NS
  rcases k with _ | k
  · simp only [Nat.zero_mul, Nat.add_zero, true_or, and_true]
    omega
  · simp only [Nat.add_sub_cancel]
    omega

theorem obs_idx_le_iff (t0 a k : Nat) : obs_idx t0 a ≤ k ↔ a ≤ tick_time t0 k := by
  unfold obs_idx tick_time CADENCE_NS
  omega

theorem obs_idx_mono (t0 a b : Nat) (h : a ≤ b) : obs_idx t0 a ≤ obs_idx t0 b := by
  unfold obs_idx CADENCE_NS
  omega

theorem read_result_pos_iff (arrivals : List Nat) (t0 k : Nat) :
    0 < read_result arrivals t0 k ↔ ∃ a ∈ arrivals, obs_idx t0 a = k := by
  unfold read_result
  by_cases h : arrived arrivals t0 k = []
  · simp only [h, if_true]
    constructor
    · intro h1; omega
    · rintro ⟨a, ha, hk⟩
      have hmem : a ∈ arrived arrivals t0 k := by
        unfold arrived
        rw [List.mem_filter]
        refine ⟨ha, ?_⟩
        have := (obs_idx_eq_iff t0 a k).1 hk
        simpa using this
      rw [h] at hmem
      simp at hmem
  · simp only [h, if_false]
    constructor
    · intro _
      obtain ⟨a, ha⟩ := List.exists_mem_of_ne_nil _ h
      unfold arrived at ha
      rw [List.mem_filter] at ha
      refine ⟨a, ha.1, (obs_idx_eq_iff t0 a k).2 ?_⟩
      simpa using ha.2
    · intro _
      have : 0 < (arrived arrivals t0 k).length := List.length_pos.2 h
      omega

theorem last_obs_eq_some_iff (arrivals : List Nat) (t0 n j : Nat) :
    last_obs arrivals t0 n = some j ↔
      (j < n ∧ 0 < read_result arrivals t0 j ∧
        ∀ i, j < i → i < n → ¬ 0 < read_result arrivals t0 i) := by
  induction n with
  | zero => simp [last_obs]
  | succ n ih =>
    unfold last_obs
    by_cases hr : 0 < read_result arrivals t0 n
    · simp only [hr, if_true, Option.some.injEq]
      constructor
      · intro h
        subst h
        exact ⟨Nat.lt_succ_self _, hr, fun i h1 h2 => by omega⟩
      · rintro ⟨h1, _, h3⟩
        by_contra hne
        exact h3 n (by omega) (Nat.lt_succ_self _) hr
    · simp only [hr, if_false]
      rw [ih]
      constructor
      · rintro ⟨h1, h2, h3⟩
        refine ⟨by omega, h2, fun i hi1 hi2 => ?_⟩
        by_cases hin : i = n
        · subst hin; exact hr
        · exact h3 i hi1 (by omega)
      · rintro ⟨h1, h2, h3⟩
        have hjn : j ≠ n := by
          intro e; subst e; exact hr h2
        exact ⟨by omega, h2, fun i hi1 hi2 => h3 i hi1 (by omega)⟩

/-- The flush ticks, from the arrival times: a flush happens `quiet_ticks`
ticks after the tick that observed some notification, provided no
notification was observed in between (nor at the flush tick itself). -/
theorem flush_tick_iff (c : config) (arrivals : List Nat) (t0 n : Nat) :
    flush_tick c arrivals t0 n ↔
      ∃ a ∈ arrivals, n = obs_idx t0 a + quiet_ticks c.delay_ms ∧
        ∀ x ∈ arrivals, obs_idx t0 x ≤ obs_idx t0 a ∨ n < obs_idx t0 x := by
  unfold flush_tick
  constructor
  · rintro ⟨j, hj, hn⟩
    rw [last_obs_eq_some_iff] at hj
    obtain ⟨h1, h2, h3⟩ := hj
    obtain ⟨a, ha, hk⟩ := (read_result_pos_iff arrivals t0 j).1 h2
    refine ⟨a, ha, by omega, fun x hx => ?_⟩
    by_contra hcon
    have hcon1 : obs_idx t0 a < obs_idx t0 x := by omega
    have hcon2 : obs_idx t0 x ≤ n := by omega
    exact h3 (obs_idx t0 x) (by omega) (by omega)
      ((read_result_pos_iff arrivals t0 _).2 ⟨x, hx, rfl⟩)
  · rintro ⟨a, ha, hn, hw⟩
    refine ⟨obs_idx t0 a, ?_, hn⟩
    rw [last_obs_eq_some_iff]
    refine ⟨by omega, (read_result_pos_iff arrivals t0 _).2 ⟨a, ha, rfl⟩, fun i hi1 hi2 hr => ?_⟩
    obtain ⟨x, hx, hxi⟩ := (read_result_pos_iff arrivals t0 i).1 hr
    rcases hw x hx with h | h <;> omega

/-! ### Bursts -/

theorem obs_idx_near (t0 a b : Nat) (d : Int) (h : (b : Int) - a < d * 1000000) :
    obs_idx t0 b ≤ obs_idx t0 a + quiet_ticks d := by
  unfold obs_idx quiet_ticks CADENCE_NS
  omega

theorem obs_idx_far (t0 a b : Nat) (d : Int) (hd : 0 ≤ d) (ha : t0 ≤ a)
    (h : a + (d.toNat + 400) * MS ≤ b) :
    tick_time t0 (obs_idx t0 a + quiet_ticks d) < b := by
  unfold obs_idx quiet_ticks tick_time CADENCE_NS
  unfold MS at h
  omega

theorem tick_time_quiet (t0 a : Nat) (d : Int) :
    (a : Int) + d * 1000000 ≤ tick_time t0 (obs_idx t0 a + quiet_ticks d) := by
  unfold obs_idx quiet_ticks tick_time CADENCE_NS
  omega

theorem is_burst_tail (d : Int) (x : Nat) (rest : List Nat) (h : is_burst d (x :: rest)) :
    is_burst d rest := by
  cases rest with
  | nil => trivial
  | cons y rest => exact h.2.2

theorem is_burst_head_le (d : Int) (x : Nat) (rest : List Nat) (h : is_burst d (x :: rest)) :
    ∀ z ∈ rest, x ≤ z := by
  induction rest generalizing x with
  | nil => intro z hz; simp at hz
  | cons y rest ih =>
    intro z hz
    rcases List.mem_cons.1 hz with e | hz'
    · subst e; exact h.1
    · exact Nat.le_trans h.1 (ih y h.2.2 z hz')

theorem is_burst_le_last (d : Int) (b : List Nat) (l : Nat) (h : is_burst d (b ++ [l])) :
    ∀ z ∈ b ++ [l], z ≤ l := by
  induction b with
  | nil => intro z hz; simp at hz; omega
  | cons x b ih =>
    intro z hz
    rw [List.cons_append] at h hz
    rcases List.mem_cons.1 hz with e | hz'
    · subst e
      exact is_burst_head_le d z (b ++ [l]) h l (by simp)
    · exact ih (is_burst_tail d x _ h) z hz'

theorem is_burst_window (t0 : Nat) (d : Int) (j : Nat) (x : Nat) (rest : List Nat)
    (h : is_burst d (x :: rest)) (hx : obs_idx t0 x ≤ j)
    (hw : ∀ z ∈ rest, obs_idx t0 z ≤ j ∨ j + quiet_ticks d < obs_idx t0 z) :
    ∀ z ∈ rest, obs_idx t0 z ≤ j := by
  induction rest generalizing x with
  | nil => intro z hz; simp at hz
  | cons y rest ih =>
    have hy : obs_idx t0 y ≤ j := by
      have h1 := obs_idx_near t0 x y d h.2.1
      rcases hw y (by simp) with h2 | h2 <;> omega
    intro z hz
    rcases List.mem_cons.1 hz with e | hz'
    · subst e; exact hy
    · exact ih y h.2.2 hy (fun z hz => hw z (List.mem_cons_of_mem _ hz)) z hz'

/-- Within a burst, a notification after whose observation the quiet period
runs out undisturbed was observed at the last observation tick of the
burst. -/
theorem is_burst_all_le (t0 : Nat) (d : Int) (b : List Nat) (a : Nat)
    (h : is_burst d b) (ha : a ∈ b)
    (hw : ∀ z ∈ b, obs_idx t0 z ≤ obs_idx t0 a ∨ obs_idx t0 a + quiet_ticks d < obs_idx t0 z) :
    ∀ z ∈ b, obs_idx t0 z ≤ obs_idx t0 a := by
  induction b with
  | nil => simp at ha
  | cons x b ih =>
    rcases List.mem_cons.1 ha with e | ha'
    · subst e
      intro z hz
      rcases List.mem_cons.1 hz with e | hz'
      · subst e; exact Nat.le_refl _
      · exact is_burst_window t0 d _ a b h (Nat.le_refl _)
          (fun z hz => hw z (List.mem_cons_of_mem _ hz)) z hz'
    · intro z hz
      rcases List.mem_cons.1 hz with e | hz'
      · subst e
        exact obs_idx_mono t0 _ _ (is_burst_head_le d z b h a ha')
      · exact ih (is_burst_tail d x b h) ha'
          (fun z hz => hw z (List.mem_cons_of_mem _ hz)) z hz'

/-- On the fixed 200 ms cadence, a burst that arrives in the idle state and is
followed by no further notification is flushed exactly once: at the tick
`quiet_ticks` after the tick that observed its last notification, which is
at least `delay_ms` after the arrival of that notification. -/
theorem burst_one_flush_on_cadence (c : config) (t0 : Nat) (b : List Nat) (l : Nat)
    (h : is_burst c.delay_ms (b ++ [l])) :
    (∀ n, flushes_after c (b ++ [l]) t0 n =
        if obs_idx t0 l + quiet_ticks c.delay_ms < n then 1 else 0) ∧
      (l : Int) + c.delay_ms * 1000000 ≤
        tick_time t0 (obs_idx t0 l + quiet_ticks c.delay_ms) := by
  refine ⟨flushes_after_of_one c _ t0 _ (fun n => ?_), tick_time_quiet t0 l c.delay_ms⟩
  rw [flush_tick_iff]
  have hle := is_burst_le_last c.delay_ms b l h
  constructor
  · rintro ⟨a, ha, hn, hw⟩
    have h1 := is_burst_all_le t0 c.delay_ms (b ++ [l]) a h ha
      (fun z hz => by rcases hw z hz with h | h <;> omega) l (by simp)
    have h2 := obs_idx_mono t0 a l (hle a ha)
    omega
  · intro hn
    exact ⟨l, by simp, hn, fun x hx => Or.inl (obs_idx_mono t0 x l (hle x hx))⟩

/-! ### Two sub-bursts -/

/-- C2 (as amended): on the 200 ms cadence, with a quiet period `delay_ms >= 0`,
two sub-bursts whose gap (from the last notification of the first to the
first notification of the second) is at least `delay_ms + 400` ms are
flushed exactly once each: the count of flushes steps at two ticks
`k1 < k2`, tick `k1` lies `delay_ms` or more after the end of the first
sub-burst and before the second sub-burst even arrives, and tick `k2` lies
`delay_ms` or more after the end of the second. -/
theorem two_bursts_two_flushes (c : config) (t0 : Nat) (b1 : List Nat) (l1 : Nat)
    (b2 : List Nat) (l2 f2 : Nat)
    (hd : 0 ≤ c.delay_ms)
    (h1 : is_burst c.delay_ms (b1 ++ [l1]))
    (h2 : is_burst c.delay_ms (b2 ++ [l2]))
    (hf : (b2 ++ [l2]).head? = some f2)
    (ht0 : t0 ≤ l1)
    (hgap : l1 + (c.delay_ms.toNat + 400) * MS ≤ f2) :
    ∃ k1 k2, k1 < k2 ∧
      (∀ n, flushes_after c ((b1 ++ [l1]) ++ (b2 ++ [l2])) t0 n =
        (if k1 < n then 1 else 0) + (if k2 < n then 1 else 0)) ∧
      (l1 : Int) + c.delay_ms * 1000000 ≤ tick_time t0 k1 ∧
      tick_time t0 k1 < f2 ∧
      (l2 : Int) + c.delay_ms * 1000000 ≤ tick_time t0 k2 := by
  have hle1 := is_burst_le_last c.delay_ms b1 l1 h1
  have hle2 := is_burst_le_last c.delay_ms b2 l2 h2
  have hfar := obs_idx_far t0 l1 f2 c.delay_ms hd ht0 hgap
  have hf2 : ∀ z ∈ b2 ++ [l2], f2 ≤ z := by
    cases hb : b2 ++ [l2] with
    | nil => simp at hb
    | cons y rest =>
      rw [hb] at hf h2
      simp only [List.head?_cons, Option.some.injEq] at hf
      subst hf
      intro z hz
      rcases List.mem_cons.1 hz with e | hz'
      · subst e; exact Nat.le_refl _
      · exact is_burst_head_le c.delay_ms y rest h2 z hz'
  have hsecond : ∀ z ∈ b2 ++ [l2], obs_idx t0 l1 + quiet_ticks c.delay_ms < obs_idx t0 z := by
    intro z hz
    by_contra hcon
    have := (obs_idx_le_iff t0 z _).1 (Nat.le_of_not_lt hcon)
    have := hf2 z hz
    omega
  have hl2 : l2 ∈ b2 ++ [l2] := by simp
  have hl1 : l1 ∈ b1 ++ [l1] := by simp
  have hlt : obs_idx t0 l1 + quiet_ticks c.delay_ms < obs_idx t0 l2 + quiet_ticks c.delay_ms := by
    have := hsecond l2 hl2
    omega
  refine ⟨obs_idx t0 l1 + quiet_ticks c.delay_ms, obs_idx t0 l2 + quiet_ticks c.delay_ms, hlt,
    flushes_after_of_two c _ t0 _ _ hlt (fun n => ?_), tick_time_quiet t0 l1 c.delay_ms, hfar,
    tick_time_quiet t0 l2 c.delay_ms⟩
  rw [flush_tick_iff]
  constructor
  · rintro ⟨a, ha, hn, hw⟩
    rcases List.mem_append.1 ha with ha1 | ha2
    · left
      have h3 := is_burst_all_le t0 c.delay_ms (b1 ++ [l1]) a h1 ha1
        (fun z hz => by
          rcases hw z (List.mem_append_left _ hz) with h | h <;> omega) l1 hl1
      have h4 := obs_idx_mono t0 a l1 (hle1 a ha1)
      omega
    · right
      have h3 := is_burst_all_le t0 c.delay_ms (b2 ++ [l2]) a h2 ha2
        (fun z hz => by
          rcases hw z (List.mem_append_right _ hz) with h | h <;> omega) l2 hl2
      have h4 := obs_idx_mono t0 a l2 (hle2 a ha2)
      omega
  · rintro (hn | hn)
    · refine ⟨l1, List.mem_append_left _ hl1, hn, fun x hx => ?_⟩
      rcases List.mem_append.1 hx with hx1 | hx2
      · exact Or.inl (obs_idx_mono t0 x l1 (hle1 x hx1))
      · right
        have := hsecond x hx2
        omega
    · refine ⟨l2, List.mem_append_right _ hl2, hn, fun x hx => ?_⟩
      rcases List.mem_append.1 hx with hx1 | hx2
      · left
        apply obs_idx_mono
        have a1 := hle1 x hx1
        have a2 := hf2 l2 hl2
        omega
      · exact Or.inl (obs_idx_mono t0 x l2 (hle2 x hx2))

/-- Witness for C2: quiet period 500 ms, first tick at 0, a first sub-burst at
0, 300 and 600 ms and a second one at 2000 and 2300 ms. -/
theorem two_bursts_two_flushes_witness :
    0 ≤ job500.delay_ms ∧
    is_burst job500.delay_ms ([0, 300 * MS] ++ [600 * MS]) ∧
    is_burst job500.delay_ms ([2000 * MS] ++ [2300 * MS]) ∧
    ∃ k1 k2, k1 < k2 ∧
      (∀ n, flushes_after job500 (([0, 300 * MS] ++ [600 * MS]) ++ ([2000 * MS] ++ [2300 * MS])) 0 n =
        (if k1 < n then 1 else 0) + (if k2 < n then 1 else 0)) ∧
      ((600 * MS : Nat) : Int) + job500.delay_ms * 1000000 ≤ tick_time 0 k1 ∧
      tick_time 0 k1 < 2000 * MS ∧
      ((2300 * MS : Nat) : Int) + job500.delay_ms * 1000000 ≤ tick_time 0 k2 :=
  ⟨by decide, by norm_num [is_burst, MS, job500], by norm_num [is_burst, MS, job500],
   two_bursts_two_flushes job500 0 [0, 300 * MS] (600 * MS) [2000 * MS] (2300 * MS) (2000 * MS)
     (by decide) (by norm_num [is_burst, MS, job500]) (by norm_num [is_burst, MS, job500])
     (by rfl) (by decide) (by decide)⟩

/-- C2 (counterexample): quiet period 500 ms, ticks at 0, 200, 400, ... ms, one
notification at 0 ms and one at 500 ms.  The gap between the two
sub-bursts is the whole quiet period, yet the loop flushes once, not twice:
the second notification is observed at the tick at 600 ms, the very tick
at which the first quiet period would run out, and restarts it; the only
flush is at tick 6 (1200 ms). -/
theorem gap_of_delay_one_flush :
    is_burst job500.delay_ms [0] ∧ is_burst job500.delay_ms [500 * MS] ∧
    job500.delay_ms * 1000000 ≤ ((500 * MS : Nat) : Int) - (0 : Nat) ∧
    (∀ n, flushes_after job500 ([0] ++ [500 * MS]) 0 n = if 6 < n then 1 else 0) ∧
    ¬ ∃ n, flushes_after job500 ([0] ++ [500 * MS]) 0 n = 2 := by
  have key : ∀ n, flushes_after job500 ([0] ++ [500 * MS]) 0 n = if 6 < n then 1 else 0 := by
    refine flushes_after_of_one job500 _ 0 6 (fun n => ?_)
    rw [flush_tick_iff]
    have e0 : obs_idx 0 0 = 0 := by decide
    have e1 : obs_idx 0 (500 * MS) = 3 := by decide
    have eq : quiet_ticks job500.delay_ms = 3 := by decide
    simp only [List.singleton_append, List.mem_cons, List.mem_singleton, exists_eq_or_imp,
      exists_eq_left, forall_eq_or_imp, forall_eq, e0, e1, eq, List.not_mem_nil, or_false]
    omega
  refine ⟨trivial, trivial, by decide, key, ?_⟩
  rintro ⟨n, hn⟩
  rw [key n] at hn
  split_ifs at hn
  omega

/-! ### Scenario A -/

/-- C3 (as amended): quiet period 500 ms, one notification at time `e` in the
idle state, first tick at or after it at `e + p` with `p < 200 ms`.  The
loop flushes exactly once, at tick 3, that is at `e + p + 600 ms`: no flush
happens before 600 ms after the notification, and the flush happens less
than 800 ms after it. -/
theorem scenario_a_flush (c : config) (e p : Nat) (hc : c.delay_ms = 500) (hp : p < CADENCE_NS) :
    (∀ n, flushes_after c [e] (e + p) n = if 3 < n then 1 else 0) ∧
    tick_time (e + p) 3 = e + p + 600 * MS ∧
    e + 600 * MS ≤ tick_time (e + p) 3 ∧ tick_time (e + p) 3 < e + 800 * MS := by
  have h := (burst_one_flush_on_cadence c (e + p) [] e (by simp [is_burst])).1
  have e1 : obs_idx (e + p) e = 0 := by
    unfold obs_idx CADENCE_NS
    unfold CADENCE_NS at hp
    omega
  have e2 : quiet_ticks c.delay_ms = 3 := by rw [hc]; decide
  rw [e1, e2] at h
  unfold CADENCE_NS at hp
  refine ⟨fun n => by simpa using h n, ?_, ?_, ?_⟩
  · unfold tick_time CADENCE_NS MS
    omega
  · unfold tick_time CADENCE_NS MS
    omega
  · unfold tick_time CADENCE_NS MS
    omega

/-- Witness for C3: the notification at 0, the first tick 150 ms later. -/
theorem scenario_a_flush_witness :
    job500.delay_ms = 500 ∧ 150 * MS < CADENCE_NS ∧
    (∀ n, flushes_after job500 [0] (0 + 150 * MS) n = if 3 < n then 1 else 0) ∧
    tick_time (0 + 150 * MS) 3 = 0 + 150 * MS + 600 * MS ∧
    0 + 600 * MS ≤ tick_time (0 + 150 * MS) 3 ∧ tick_time (0 + 150 * MS) 3 < 0 + 800 * MS :=
  ⟨by decide, by decide, scenario_a_flush job500 0 (150 * MS) (by decide) (by decide)⟩

/-- C3 (counterexample): quiet period 500 ms, the notification at 0, ticks
at 150, 350, 550, 750 ms.  The only tick between 500 ms and 700 ms is tick
2 (550 ms), and it does not flush; the flush is at tick 3, at 750 ms. -/
theorem scenario_a_flush_after_700 :
    (¬ ∃ k, 500 * MS ≤ tick_time (150 * MS) k ∧ tick_time (150 * MS) k ≤ 700 * MS ∧
      flushes_after job500 [0] (150 * MS) (k + 1) = flushes_after job500 [0] (150 * MS) k + 1) ∧
    flushes_after job500 [0] (150 * MS) 3 = 0 ∧
    flushes_after job500 [0] (150 * MS) 4 = 1 ∧
    tick_time (150 * MS) 3 = 750 * MS := by
  have h := (burst_one_flush_on_cadence job500 (150 * MS) [] 0 (by simp [is_burst])).1
  have e1 : obs_idx (150 * MS) 0 = 0 := by decide
  have e2 : quiet_ticks job500.delay_ms = 3 := by decide
  rw [e1, e2] at h
  simp only [List.nil_append, Nat.zero_add] at h
  refine ⟨?_, by rw [h]; decide, by rw [h]; decide, by decide⟩
  rintro ⟨k, h1, h2, h3⟩
  rw [h, h] at h3
  unfold tick_time CADENCE_NS MS at h1 h2
  have hk : k = 2 := by omega
  subst hk
  simp at h3

/-! ## The timer check -/

/-- C9 (the code at the failing input): `last_event` = 0.999999999 s,
`now` = 1.499000000 s, quiet period 500 ms.  Both readings are well formed
and only 499000001 ns have elapsed, less than 500 ms, yet `diff` is 500 and
the iteration flushes.  The truncating division rounds the negative
nanosecond difference -500999999 up to -500 ms. -/
theorem diff_early_at_nsec_wrap :
    timespec.valid ⟨0, 999999999⟩ ∧ timespec.valid ⟨1, 499000000⟩ ∧
    elapsed_ns ⟨0, 999999999⟩ ⟨1, 499000000⟩ = 499000001 ∧
    elapsed_ns ⟨0, 999999999⟩ ⟨1, 499000000⟩ < job500.delay_ms * 1000000 ∧
    diff ⟨0, 999999999⟩ ⟨1, 499000000⟩ = 500 ∧
    watch_job_iter job500 ⟨1, ⟨0, 999999999⟩⟩ ⟨-1, ⟨1, 499000000⟩, ⟨1, 499000000⟩⟩ =
      (⟨0, ⟨0, 999999999⟩⟩, [Call.run_rsync job500, Call.add_watch_recursive "/srv/data"]) := by
  refine ⟨by unfold timespec.valid; decide, by unfold timespec.valid; decide, by decide,
    by decide, by decide, by decide⟩

/-- C1 (the code at the failing input): quiet period 401 ms, one
notification arriving at 0.999900000 s, read by the tick at 0.999999999 s,
then ticks at 1.200300000 s and 1.400500000 s.  The third tick flushes,
400.6 ms after the arrival and 400.500001 ms after the observation, both
less than the quiet period. -/
theorem burst_flushed_early :
    (watch_job_run job401 watch_job_init jitter_ticks).2 =
      [Call.run_rsync job401, Call.add_watch_recursive "/srv/data"] ∧
    (watch_job_run job401 watch_job_init (jitter_ticks.take 2)).2 = [] ∧
    elapsed_ns ⟨0, 999900000⟩ ⟨0, 999999999⟩ = 99999 ∧
    elapsed_ns ⟨0, 999999999⟩ ⟨1, 400500000⟩ = 400500001 ∧
    elapsed_ns ⟨0, 999900000⟩ ⟨1, 400500000⟩ = 400600000 ∧
    elapsed_ns ⟨0, 999900000⟩ ⟨1, 400500000⟩ < job401.delay_ms * 1000000 := by
  refine ⟨by decide, by decide, by decide, by decide, by decide, by decide⟩

theorem watch_job_iter_flush_eq (c : config) (s : JobState) (tk : Tick)
    (hf : (watch_job_iter c s tk).2 ≠ []) :
    watch_job_iter c s tk =
      (⟨0, if 0 < tk.r then tk.t_event else s.last_event⟩,
       [Call.run_rsync c, Call.add_watch_recursive c.local_root]) := by
  by_cases hr : 0 < tk.r
  · by_cases hd : c.delay_ms ≤ diff tk.t_event tk.now
    · simp [watch_job_iter, hr, hd]
    · exact absurd (by simp [watch_job_iter, hr, hd]) hf
  · by_cases hp : s.pending = 0
    · exact absurd (by simp [watch_job_iter, hr, hp]) hf
    · by_cases hd : c.delay_ms ≤ diff s.last_event tk.now
      · simp [watch_job_iter, hr, hd, hp]
      · exact absurd (by simp [watch_job_iter, hr, hd, hp]) hf

/-- Whatever `run_rsync` did, a flushing iteration leaves the loop idle, has
called `run_rsync` and then `add_watch_recursive` on the root, and the loop
goes on: the next iteration that reads events is pending again (or
flushes at once), with `last_event` set by that iteration. -/
theorem watch_job_iter_after_flush (c : config) (s : JobState) (tk tk2 : Tick)
    (hf : (watch_job_iter c s tk).2 ≠ []) (hr : 0 < tk2.r) :
    (watch_job_iter c s tk).1.pending = 0 ∧
    (watch_job_iter c s tk).2 = [Call.run_rsync c, Call.add_watch_recursive c.local_root] ∧
    (watch_job_iter c (watch_job_iter c s tk).1 tk2).1.last_event = tk2.t_event ∧
    ((watch_job_iter c (watch_job_iter c s tk).1 tk2).1.pending = 1 ∨
      (watch_job_iter c (watch_job_iter c s tk).1 tk2).2 ≠ []) := by
  rw [watch_job_iter_flush_eq c s tk hf]
  refine ⟨rfl, rfl, ?_, ?_⟩
  · by_cases hd : c.delay_ms ≤ diff tk2.t_event tk2.now <;> simp [watch_job_iter, hr, hd]
  · by_cases hd : c.delay_ms ≤ diff tk2.t_event tk2.now <;> simp [watch_job_iter, hr, hd]

/-! ## What `run_rsync` logs -/

/-- A failed `mkstemp` is logged and the command is not run. -/
theorem run_rsync_mkstemp_failed (c : config) (env : RsyncEnv)
    (h : env.excl_fd < 0 ∨ env.out_fd < 0) :
    run_rsync c env = ⟨[⟨LOG_ERR, "[" ++ c.name ++ "] mkstemp failed"⟩], []⟩ := by
  unfold run_rsync
  simp [h]

/-- A command that does not fit in `cmd` is logged and not run. -/
theorem run_rsync_overflow (c : config) (env : RsyncEnv)
    (h1 : 0 ≤ env.excl_fd) (h2 : 0 ≤ env.out_fd) (h3 : env.excl_fdopen_ok = true)
    (h4 : CMD_BUF ≤ ((rsync_command c env).utf8ByteSize : Int)) :
    run_rsync c env = ⟨[⟨LOG_ERR, "[" ++ c.name ++ "] Command buffer overflow"⟩], []⟩ := by
  have hm : ¬ (env.excl_fd < 0 ∨ env.out_fd < 0) := by omega
  unfold run_rsync
  simp [hm, h3, h4]

/-- A failed `fdopen` of the exclude file ends `run_rsync` with no log line
and no command. -/
theorem run_rsync_fdopen_failed (c : config) (env : RsyncEnv)
    (h1 : 0 ≤ env.excl_fd) (h2 : 0 ≤ env.out_fd) (h3 : env.excl_fdopen_ok = false) :
    run_rsync c env = ⟨[], []⟩ := by
  have hm : ¬ (env.excl_fd < 0 ∨ env.out_fd < 0) := by omega
  unfold run_rsync
  simp [hm, h3]

set_option maxRecDepth 100000 in
/-- C10 (the code at the failing input): both `mkstemp` calls succeed and
`fdopen(excl_fd, "w")` fails.  `run_rsync` returns without running the
command and without any log line, whereas the sibling failure of `mkstemp`
logs an error. -/
theorem run_rsync_fdopen_failure_silent :
    run_rsync job500 env_fdopen_fails = ⟨[], []⟩ ∧
    run_rsync job500 env_mkstemp_fails = ⟨[⟨LOG_ERR, "[cli] mkstemp failed"⟩], []⟩ := by
  refine ⟨by decide, by decide⟩

/-! ## The watch tree builder -/

theorem mem_paths_iff (fd : Inotify) (p : String) :
    p ∈ fd.paths ↔ ∃ w ∈ fd.watches, w.2 = p := by
  simp [Inotify.paths]

theorem find_watch_none_iff (fd : Inotify) (path : String) :
    fd.watches.find? (fun w => w.2 == path) = none ↔ path ∉ fd.paths := by
  rw [List.find?_eq_none, mem_paths_iff]
  simp only [beq_iff_eq, Prod.forall, Prod.exists, exists_and_right, exists_eq_right, not_exists]
  constructor
  · intro h x hx
    exact h x path hx rfl
  · intro h a b hab e
    subst e
    exact h a hab

/-- Registering a path adds it, if the kernel accepts it, and nothing else. -/
theorem mem_paths_add_watch (fd : Inotify) (path : String) (ok : Bool) (p : String) :
    p ∈ (inotify_add_watch fd path ok).1.paths ↔ (p ∈ fd.paths ∨ (ok = true ∧ p = path)) := by
  unfold inotify_add_watch
  cases ok with
  | false => simp
  | true =>
    simp only [if_true, true_and]
    cases hf : fd.watches.find? (fun w => w.2 == path) with
    | none => simp [Inotify.paths]
    | some w =>
      have hm : path ∈ fd.paths := by
        by_contra hcon
        rw [(find_watch_none_iff fd path).2 hcon] at hf
        cases hf
      simp only
      constructor
      · intro h; exact Or.inl h
      · rintro (h | h)
        · exact h
        · rw [h]; exact hm

/-- Registering a path that is registered changes nothing. -/
theorem add_watch_of_mem (fd : Inotify) (path : String) (ok : Bool)
    (h : ok = true → path ∈ fd.paths) : (inotify_add_watch fd path ok).1 = fd := by
  unfold inotify_add_watch
  cases ok with
  | false => simp
  | true =>
    simp only [if_true]
    cases hf : fd.watches.find? (fun w => w.2 == path) with
    | none => exact absurd (h rfl) ((find_watch_none_iff fd path).1 hf)
    | some w => rfl

theorem snprintf_sub_eq_some (path d_name sub : String) (h : snprintf_sub path d_name = some sub) :
    sub = path ++ "/" ++ d_name := by
  unfold snprintf_sub at h
  simp only at h
  split_ifs at h
  simp only [Option.some.injEq] at h
  exact h.symm

theorem walked_mk_iff (path : String) (a o : Bool) (es : List (String × Entry))
    (p : String) (dp : Dir) :
    Walked path (Dir.mk a o es) p dp ↔
      ((p = path ∧ dp = Dir.mk a o es) ∨
        (o = true ∧ ∃ d_name dc, (d_name, Entry.subdir dc) ∈ es ∧ d_name ≠ "." ∧ d_name ≠ ".." ∧
          Walked (path ++ "/" ++ d_name) dc p dp)) := by
  constructor
  · intro h
    cases h with
    | root => exact Or.inl ⟨rfl, rfl⟩
    | down hm h1 h2 hw => exact Or.inr ⟨rfl, _, _, hm, h1, h2, hw⟩
  · rintro (⟨h1, h2⟩ | ⟨ho, d_name, dc, hm, h1, h2, hw⟩)
    · subst h1; subst h2; exact Walked.root _ _
    · subst ho; exact Walked.down hm h1 h2 hw

mutual
/-- The paths in the registry after the walk: those before it, and the
directories the walk entered on which `inotify_add_watch` succeeds. -/
theorem mem_add_watch_recursive : ∀ (d : Dir) (fd : Inotify) (path : String) (fd1 : Inotify),
    add_watch_recursive fd path d = some fd1 → ∀ p,
      (p ∈ fd1.paths ↔ (p ∈ fd.paths ∨ ∃ dp, Walked path d p dp ∧ dp.add_ok = true))
  | .mk a o es, fd, path, fd1, h, p => by
    unfold add_watch_recursive at h
    simp only at h
    have hadd := mem_paths_add_watch fd path a
    cases o with
    | false =>
      simp only [Bool.false_eq_true, if_false, Option.some.injEq] at h
      subst h
      rw [hadd]
      constructor
      · rintro (h1 | ⟨h1, h2⟩)
        · exact Or.inl h1
        · subst h2
          exact Or.inr ⟨_, Walked.root _ _, h1⟩
      · rintro (h1 | ⟨dp, hw, hok⟩)
        · exact Or.inl h1
        · rw [walked_mk_iff] at hw
          rcases hw with ⟨h1, h2⟩ | ⟨ho, _⟩
          · subst h2; exact Or.inr ⟨hok, h1⟩
          · cases ho
    | true =>
      simp only [if_true] at h
      rw [mem_readdir_loop es _ path fd1 h p, hadd]
      constructor
      · rintro ((h1 | ⟨h1, h2⟩) | ⟨d_name, dc, dp, hm, hn1, hn2, hw, hok⟩)
        · exact Or.inl h1
        · subst h2
          exact Or.inr ⟨_, Walked.root _ _, h1⟩
        · exact Or.inr ⟨dp, Walked.down hm hn1 hn2 hw, hok⟩
      · rintro (h1 | ⟨dp, hw, hok⟩)
        · exact Or.inl (Or.inl h1)
        · rw [walked_mk_iff] at hw
          rcases hw with ⟨h1, h2⟩ | ⟨_, d_name, dc, hm, hn1, hn2, hw⟩
          · subst h2; exact Or.inl (Or.inr ⟨hok, h1⟩)
          · exact Or.inr ⟨d_name, dc, dp, hm, hn1, hn2, hw, hok⟩
/-- The entries part of `mem_add_watch_recursive`. -/
theorem mem_readdir_loop : ∀ (es : List (String × Entry)) (fd : Inotify) (path : String)
    (fd1 : Inotify), readdir_loop fd path es = some fd1 → ∀ p,
      (p ∈ fd1.paths ↔ (p ∈ fd.paths ∨ ∃ d_name dc dp, (d_name, Entry.subdir dc) ∈ es ∧
        d_name ≠ "." ∧ d_name ≠ ".." ∧ Walked (path ++ "/" ++ d_name) dc p dp ∧
        dp.add_ok = true))
  | [], fd, path, fd1, h, p => by
    unfold readdir_loop at h
    simp only [Option.some.injEq] at h
    subst h
    simp
  | (d_name, e) :: rest, fd, path, fd1, h, p => by
    unfold readdir_loop at h
    by_cases hs : d_name = "." ∨ d_name = ".."
    · simp only [hs, if_true] at h
      rw [mem_readdir_loop rest fd path fd1 h p]
      constructor
      · rintro (h1 | ⟨n, dc, dp, hm, hn1, hn2, hw, hok⟩)
        · exact Or.inl h1
        · exact Or.inr ⟨n, dc, dp, List.mem_cons_of_mem _ hm, hn1, hn2, hw, hok⟩
      · rintro (h1 | ⟨n, dc, dp, hm, hn1, hn2, hw, hok⟩)
        · exact Or.inl h1
        · rcases List.mem_cons.1 hm with e1 | hm'
          · simp only [Prod.mk.injEq] at e1
            rcases hs with hs | hs
            · exact absurd (e1.1.trans hs) hn1
            · exact absurd (e1.1.trans hs) hn2
          · exact Or.inr ⟨n, dc, dp, hm', hn1, hn2, hw, hok⟩
    · simp only [hs, if_false] at h
      have hs1 : d_name ≠ "." := fun e => hs (Or.inl e)
      have hs2 : d_name ≠ ".." := fun e => hs (Or.inr e)
      cases hsub : snprintf_sub path d_name with
      | none => simp [hsub] at h
      | some sub =>
        have esub := snprintf_sub_eq_some path d_name sub hsub
        simp only [hsub] at h
        cases e with
        | subdir d =>
          simp only at h
          cases hrec : add_watch_recursive fd sub d with
          | none => simp [hrec] at h
          | some fd2 =>
            simp only [hrec] at h
            rw [mem_readdir_loop rest fd2 path fd1 h p, mem_add_watch_recursive d fd sub fd2 hrec p]
            subst esub
            constructor
            · rintro ((h1 | ⟨dp, hw, hok⟩) | ⟨n, dc, dp, hm, hn1, hn2, hw, hok⟩)
              · exact Or.inl h1
              · exact Or.inr ⟨d_name, d, dp, List.mem_cons_self _ _, hs1, hs2, hw, hok⟩
              · exact Or.inr ⟨n, dc, dp, List.mem_cons_of_mem _ hm, hn1, hn2, hw, hok⟩
            · rintro (h1 | ⟨n, dc, dp, hm, hn1, hn2, hw, hok⟩)
              · exact Or.inl (Or.inl h1)
              · rcases List.mem_cons.1 hm with e1 | hm'
                · simp only [Prod.mk.injEq, Entry.subdir.injEq] at e1
                  obtain ⟨e2, e3⟩ := e1
                  subst e2; subst e3
                  exact Or.inl (Or.inr ⟨dp, hw, hok⟩)
                · exact Or.inr ⟨n, dc, dp, hm', hn1, hn2, hw, hok⟩
        | reg =>
          simp only at h
          rw [mem_readdir_loop rest fd path fd1 h p]
          constructor
          · rintro (h1 | ⟨n, dc, dp, hm, hn1, hn2, hw, hok⟩)
            · exact Or.inl h1
            · exact Or.inr ⟨n, dc, dp, List.mem_cons_of_mem _ hm, hn1, hn2, hw, hok⟩
          · rintro (h1 | ⟨n, dc, dp, hm, hn1, hn2, hw, hok⟩)
            · exact Or.inl h1
            · rcases List.mem_cons.1 hm with e1 | hm'
              · simp at e1
              · exact Or.inr ⟨n, dc, dp, hm', hn1, hn2, hw, hok⟩
        | symlink b =>
          simp only at h
          rw [mem_readdir_loop rest fd path fd1 h p]
          constructor
          · rintro (h1 | ⟨n, dc, dp, hm, hn1, hn2, hw, hok⟩)
            · exact Or.inl h1
            · exact Or.inr ⟨n, dc, dp, List.mem_cons_of_mem _ hm, hn1, hn2, hw, hok⟩
          · rintro (h1 | ⟨n, dc, dp, hm, hn1, hn2, hw, hok⟩)
            · exact Or.inl h1
            · rcases List.mem_cons.1 hm with e1 | hm'
              · simp at e1
              · exact Or.inr ⟨n, dc, dp, hm', hn1, hn2, hw, hok⟩
end

theorem entries_names_ok_mem (path : String) (es : List (String × Entry))
    (h : entries_names_ok path es = true) (d_name : String) (e : Entry)
    (hm : (d_name, e) ∈ es) :
    d_name ≠ "." ∧ d_name ≠ ".." ∧ (path ++ "/" ++ d_name).utf8ByteSize < PATH_MAX ∧
      ∀ dc, e = Entry.subdir dc → dc.names_ok (path ++ "/" ++ d_name) = true := by
  induction es with
  | nil => simp at hm
  | cons x rest ih =>
    obtain ⟨n, e0⟩ := x
    unfold entries_names_ok at h
    simp only [Bool.and_eq_true, decide_eq_true_eq] at h
    obtain ⟨⟨⟨⟨h1, h2⟩, h3⟩, h4⟩, h5⟩ := h
    rcases List.mem_cons.1 hm with e1 | hm'
    · simp only [Prod.mk.injEq] at e1
      obtain ⟨e2, e3⟩ := e1
      subst e2; subst e3
      refine ⟨h1, h2, h3, fun dc hdc => ?_⟩
      subst hdc
      exact h4
    · exact ih h5 hm'

mutual
/-- The walk comes to an end with a registry when no name is cut. -/
theorem add_watch_recursive_some : ∀ (d : Dir) (fd : Inotify) (path : String),
    d.names_ok path = true → ∃ fd1, add_watch_recursive fd path d = some fd1
  | .mk a o es, fd, path, hn => by
    unfold add_watch_recursive
    simp only
    cases o with
    | false =>
      simp only [Bool.false_eq_true, if_false]
      exact ⟨_, rfl⟩
    | true =>
      simp only [if_true]
      exact readdir_loop_some es _ path (by unfold Dir.names_ok at hn; exact hn)
/-- The entries part of `add_watch_recursive_some`. -/
theorem readdir_loop_some : ∀ (es : List (String × Entry)) (fd : Inotify) (path : String),
    entries_names_ok path es = true → ∃ fd1, readdir_loop fd path es = some fd1
  | [], fd, path, _ => ⟨fd, by unfold readdir_loop; rfl⟩
  | (d_name, e) :: rest, fd, path, hn => by
    have hh := entries_names_ok_mem path _ hn d_name e (List.mem_cons_self _ _)
    have hrest : entries_names_ok path rest = true := by
      unfold entries_names_ok at hn
      simp only [Bool.and_eq_true] at hn
      exact hn.2
    have hs : ¬ (d_name = "." ∨ d_name = "..") := by
      rintro (h | h)
      · exact hh.1 h
      · exact hh.2.1 h
    have hsub : snprintf_sub path d_name = some (path ++ "/" ++ d_name) := by
      unfold snprintf_sub
      simp [hh.2.2.1]
    unfold readdir_loop
    simp only [hs, if_false, hsub]
    cases e with
    | subdir d =>
      obtain ⟨fd2, h2⟩ := add_watch_recursive_some d fd (path ++ "/" ++ d_name) (hh.2.2.2 d rfl)
      simp only [h2]
      exact readdir_loop_some rest fd2 path hrest
    | reg => exact readdir_loop_some rest fd path hrest
    | symlink b => exact readdir_loop_some rest fd path hrest
end

mutual
/-- A walk over a tree whose reachable directories are all registered
changes nothing. -/
theorem add_watch_recursive_stable : ∀ (d : Dir) (fd0 fd1 fd : Inotify) (path : String),
    add_watch_recursive fd0 path d = some fd1 →
    (∀ p, (∃ dp, Walked path d p dp ∧ dp.add_ok = true) → p ∈ fd.paths) →
    add_watch_recursive fd path d = some fd
  | .mk a o es, fd0, fd1, fd, path, h, hreg => by
    unfold add_watch_recursive at h ⊢
    simp only at h ⊢
    have hadd : (inotify_add_watch fd path a).1 = fd :=
      add_watch_of_mem fd path a (fun ha => hreg path ⟨_, Walked.root _ _, ha⟩)
    rw [hadd]
    cases o with
    | false => simp
    | true =>
      simp only [if_true] at h ⊢
      refine readdir_loop_stable es _ fd1 fd path h (fun p hp => ?_)
      obtain ⟨n, dc, dp, hm, hn1, hn2, hw, hok⟩ := hp
      exact hreg p ⟨dp, Walked.down hm hn1 hn2 hw, hok⟩
/-- The entries part of `add_watch_recursive_stable`. -/
theorem readdir_loop_stable : ∀ (es : List (String × Entry)) (fd0 fd1 fd : Inotify)
    (path : String), readdir_loop fd0 path es = some fd1 →
    (∀ p, (∃ d_name dc dp, (d_name, Entry.subdir dc) ∈ es ∧ d_name ≠ "." ∧ d_name ≠ ".." ∧
      Walked (path ++ "/" ++ d_name) dc p dp ∧ dp.add_ok = true) → p ∈ fd.paths) →
    readdir_loop fd path es = some fd
  | [], fd0, fd1, fd, path, _, _ => by unfold readdir_loop; rfl
  | (d_name, e) :: rest, fd0, fd1, fd, path, h, hreg => by
    have hrest : ∀ p, (∃ n dc dp, (n, Entry.subdir dc) ∈ rest ∧ n ≠ "." ∧ n ≠ ".." ∧
        Walked (path ++ "/" ++ n) dc p dp ∧ dp.add_ok = true) → p ∈ fd.paths := by
      rintro p ⟨n, dc, dp, hm, hn1, hn2, hw, hok⟩
      exact hreg p ⟨n, dc, dp, List.mem_cons_of_mem _ hm, hn1, hn2, hw, hok⟩
    unfold readdir_loop at h ⊢
    by_cases hs : d_name = "." ∨ d_name = ".."
    · simp only [hs, if_true] at h ⊢
      exact readdir_loop_stable rest fd0 fd1 fd path h hrest
    · simp only [hs, if_false] at h ⊢
      have hs1 : d_name ≠ "." := fun e => hs (Or.inl e)
      have hs2 : d_name ≠ ".." := fun e => hs (Or.inr e)
      cases hsub : snprintf_sub path d_name with
      | none => simp [hsub] at h
      | some sub =>
        have esub := snprintf_sub_eq_some path d_name sub hsub
        simp only [hsub] at h ⊢
        cases e with
        | subdir d =>
          simp only at h ⊢
          cases hrec : add_watch_recursive fd0 sub d with
          | none => simp [hrec] at h
          | some fd2 =>
            simp only [hrec] at h
            have h1 : add_watch_recursive fd sub d = some fd := by
              refine add_watch_recursive_stable d fd0 fd2 fd sub hrec (fun p hp => ?_)
              obtain ⟨dp, hw, hok⟩ := hp
              subst esub
              exact hreg p ⟨d_name, d, dp, List.mem_cons_self _ _, hs1, hs2, hw, hok⟩
            simp only [h1]
            exact readdir_loop_stable rest fd2 fd1 fd path h hrest
        | reg => exact readdir_loop_stable rest fd0 fd1 fd path h hrest
        | symlink b => exact readdir_loop_stable rest fd0 fd1 fd path h hrest
end

/-- C7: a second walk over an unchanged tree leaves the registry as the first
walk left it: no entry is added and no handle changes. -/
theorem add_watch_recursive_idempotent (fd : Inotify) (path : String) (d : Dir) (fd1 : Inotify)
    (h : add_watch_recursive fd path d = some fd1) :
    add_watch_recursive fd1 path d = some fd1 :=
  add_watch_recursive_stable d fd fd1 fd1 path h
    (fun p hp => (mem_add_watch_recursive d fd path fd1 h p).2 (Or.inr hp))

set_option maxRecDepth 100000 in
/-- Witness for C7: two walks over `tree_failing` from the empty registry. -/
theorem add_watch_recursive_idempotent_witness :
    add_watch_recursive inotify_init1 "/r" tree_failing =
      some ⟨[(1, "/r"), (2, "/r/D/E"), (3, "/r/U"), (4, "/r/F")], 5⟩ ∧
    add_watch_recursive ⟨[(1, "/r"), (2, "/r/D/E"), (3, "/r/U"), (4, "/r/F")], 5⟩ "/r" tree_failing =
      some ⟨[(1, "/r"), (2, "/r/D/E"), (3, "/r/U"), (4, "/r/F")], 5⟩ :=
  ⟨by decide, add_watch_recursive_idempotent inotify_init1 "/r" tree_failing _ (by decide)⟩

/-! ## The daemon supervisor -/

theorem fork_loop_supervisor (env : MainEnv) (jobs : Nat → config) (r i : Nat)
    (h : ∀ j, i ≤ j → j < i + r → env.fork_ret j ≠ 0) :
    (fork_loop env jobs i r).trace.filter Ev.is_fork =
        (List.range' i r).map (fun j => Ev.fork (env.fork_ret j)) ∧
      watched (fork_loop env jobs i r).trace = [] ∧
      (fork_loop env jobs i r).status = some 0 := by
  induction r generalizing i with
  | zero => simp [fork_loop, Ev.is_fork, watched]
  | succ r ih =>
    have h0 : env.fork_ret i ≠ 0 := h i (Nat.le_refl _) (by omega)
    obtain ⟨ih1, ih2, ih3⟩ := ih (i + 1) (fun j h1 h2 => h j (by omega) (by omega))
    unfold fork_loop
    simp only [h0, if_false]
    refine ⟨?_, ?_, ih3⟩
    · simp only [List.filter_cons, Ev.is_fork, if_true, ih1, List.range'_succ, List.map_cons]
    · simpa [watched, List.filterMap_cons] using ih2

theorem fork_loop_child (env : MainEnv) (jobs : Nat → config) (r i k : Nat)
    (hik : i ≤ k) (hk : k < i + r)
    (h : ∀ j, i ≤ j → j < k → env.fork_ret j ≠ 0) (h0 : env.fork_ret k = 0) :
    (fork_loop env jobs i r).trace.filter Ev.is_fork =
        (List.range' i (k - i)).map (fun j => Ev.fork (env.fork_ret j)) ++ [Ev.fork 0] ∧
      watched (fork_loop env jobs i r).trace = [jobs k] ∧
      (fork_loop env jobs i r).status = none := by
  induction r generalizing i with
  | zero => omega
  | succ r ih =>
    unfold fork_loop
    by_cases hi : i = k
    · subst hi
      simp [h0, Ev.is_fork, watched]
    · have hne : env.fork_ret i ≠ 0 := h i (Nat.le_refl _) (by omega)
      obtain ⟨ih1, ih2, ih3⟩ := ih (i + 1) (by omega) (by omega)
        (fun j h1 h2 => h j (by omega) h2)
      have e : k - i = (k - (i + 1)) + 1 := by omega
      simp only [hne, if_false]
      refine ⟨?_, ?_, ih3⟩
      · simp only [List.filter_cons, Ev.is_fork, if_true, ih1, e, List.range'_succ,
          List.map_cons, List.cons_append]
      · simpa [watched, List.filterMap_cons] using ih2

/-- C8: with an empty roster the daemon branch of `main` only opens the log,
logs an error and returns 1: it reaches neither `daemonize` nor a `fork`
nor `watch_job`.  With a roster of `n >= 1` jobs, in a process in which
`daemonize` returns: the supervisor (every `fork` returns non-zero) calls
`fork` exactly `n` times, once per roster index in order, enters no
`watch_job` and returns 0; the child made by the `fork` for index `i`
(that `fork` returns 0 there) has run the `fork` calls for the indices up
to `i` only and enters `watch_job` on `jobs[i]` and on no other job. -/
theorem main_daemon_forks (env : MainEnv) (jobs : Nat → config) (n : Nat)
    (hd : env.daemonize_exit = none) (hn : 1 ≤ n) :
    main_daemon env jobs 0 =
      ⟨[Ev.openlog,
        Ev.ws_log ⟨LOG_ERR, "No valid jobs found. Check permissions and /etc/watchsync.d/"⟩],
       some 1⟩ ∧
    ((∀ j, j < n → env.fork_ret j ≠ 0) →
      (main_daemon env jobs n).trace.filter Ev.is_fork =
          (List.range n).map (fun j => Ev.fork (env.fork_ret j)) ∧
        ((main_daemon env jobs n).trace.filter Ev.is_fork).length = n ∧
        watched (main_daemon env jobs n).trace = [] ∧
        (main_daemon env jobs n).status = some 0) ∧
    (∀ i, i < n → (∀ j, j < i → env.fork_ret j ≠ 0) → env.fork_ret i = 0 →
      (main_daemon env jobs n).trace.filter Ev.is_fork =
          (List.range i).map (fun j => Ev.fork (env.fork_ret j)) ++ [Ev.fork 0] ∧
        watched (main_daemon env jobs n).trace = [jobs i] ∧
        (main_daemon env jobs n).status = none) := by
  have hn0 : ¬ (n = 0) := by omega
  refine ⟨by simp [main_daemon], fun h => ?_, fun i hi hpre h0 => ?_⟩
  · obtain ⟨h1, h2, h3⟩ := fork_loop_supervisor env jobs n 0 (fun j _ hj => h j (by omega))
    have e : (main_daemon env jobs n).trace.filter Ev.is_fork =
        (List.range n).map (fun j => Ev.fork (env.fork_ret j)) := by
      simp [main_daemon, hn0, hd, Ev.is_fork, h1, List.range_eq_range']
    refine ⟨e, by rw [e]; simp, ?_, ?_⟩
    · simpa [main_daemon, hn0, hd, watched, List.filterMap_append] using h2
    · simpa [main_daemon, hn0, hd] using h3
  · obtain ⟨h1, h2, h3⟩ := fork_loop_child env jobs n 0 i (Nat.zero_le _) (by omega)
      (fun j _ hj => hpre j hj) h0
    refine ⟨?_, ?_, ?_⟩
    · simp [main_daemon, hn0, hd, Ev.is_fork, h1, List.range_eq_range']
    · simpa [main_daemon, hn0, hd, watched, List.filterMap_append] using h2
    · simpa [main_daemon, hn0, hd] using h3

/-- Witness for C8: the supervisor of the roster `jobs2` of two jobs, and
the child that its second `fork` makes. -/
theorem main_daemon_forks_witness :
    env_supervisor.daemonize_exit = none ∧ env_child.daemonize_exit = none ∧ 1 ≤ 2 ∧
    ((main_daemon env_supervisor jobs2 2).trace.filter Ev.is_fork = [Ev.fork 101, Ev.fork 102] ∧
      ((main_daemon env_supervisor jobs2 2).trace.filter Ev.is_fork).length = 2 ∧
      watched (main_daemon env_supervisor jobs2 2).trace = [] ∧
      (main_daemon env_supervisor jobs2 2).status = some 0) ∧
    ((main_daemon env_child jobs2 2).trace.filter Ev.is_fork = [Ev.fork 101, Ev.fork 0] ∧
      watched (main_daemon env_child jobs2 2).trace = [job401] ∧
      (main_daemon env_child jobs2 2).status = none) :=
  ⟨rfl, rfl, by decide,
   (main_daemon_forks env_supervisor jobs2 2 rfl (by decide)).2.1
     (fun j _ => by simp only [env_supervisor]; omega),
   (main_daemon_forks env_child jobs2 2 rfl (by decide)).2.2 1 (by decide)
     (fun j hj => by
       have : j = 0 := by omega
       subst this
       decide)
     rfl⟩

end WatchSync
